import Mathlib

/-!
Verification of the mixed-markup LaTeX renderer
(`src/components/LatexRenderer.tsx`).

The renderer is embedded shallowly over `List Char`:

* `convertLatexToHtml` models the chain of `String.replace` calls that
  rewrites recognized commands into sentinel markers (lines 29-64 of the
  source).  Each JavaScript `replace(/pat/g, rep)` is modelled by `scanRep`,
  a left-to-right leftmost non-overlapping replacement scanner.
* `splitKeep` models JavaScript `String.split` with a capturing group:
  the output alternates text chunks and separator matches, with empty
  chunks kept (leading, trailing and between adjacent separators).
* `mathScan` models the `mathPattern.exec` loop (lines 168-198): a single
  left-to-right scan where each position tries, in this order,
  `$$...$$`, `$...$` (no `$` and no newline inside, at least one char),
  `\[...\]`, `\(...\)`, all with shortest (first-closing) capture.
* `renderParts` / `itemsLoop` model the two stateful `forEach` loops over
  the split parts (lines 87-145), including the quirks of the source:
  the list div is pushed only on an end marker, `listItems` is reset only
  on a start marker, and an item is pushed only when its trimmed content
  is nonempty and (it has a label or it is the chunk at index 0).
* The math backend is a parameter `ok : List Char → Bool`; `ok e = true`
  models `katex` typesetting `e` without throwing, `false` models a throw
  caught by `SafeInlineMath` / `SafeBlockMath`, which emit the
  `latex-error` fallback `$e$` / `$$e$$` built from the trimmed expression.

Presentation-only wrappers of the source (the keyed `<span>` around each
non-list text part, the `latex-block-math` div, the parentheses the item
label is printed inside) carry no data and are elided; nodes keep the
text, style flags, expressions, display mode, labels and order exactly.
-/

namespace LatexRenderer

/-- Boolean "is prefix" on character lists (JavaScript `startsWith`). -/
def pfx : List Char → List Char → Bool
  | [], _ => true
  | _ :: _, [] => false
  | a :: as, b :: bs => if a = b then pfx as bs else false

/-- Does `pat` occur as a substring of `l` (JavaScript `includes`)? -/
def hasSub (pat : List Char) : List Char → Bool
  | [] => pfx pat []
  | c :: cs => if pfx pat (c :: cs) then true else hasSub pat cs

/-- JavaScript `String.replace` with a *string* pattern: replace only the
first occurrence, scanning left to right. -/
def replaceFirst (pat rep : List Char) : List Char → List Char
  | [] => []
  | c :: cs =>
    if pfx pat (c :: cs) then rep ++ (c :: cs).drop pat.length
    else c :: replaceFirst pat rep cs

/-- JavaScript `String.trim`: strip whitespace from both ends. -/
def trimWS (l : List Char) : List Char :=
  ((l.dropWhile Char.isWhitespace).reverse.dropWhile Char.isWhitespace).reverse

/-- `split('\n')` — split on newline characters, keeping empty pieces. -/
def splitOnNl : List Char → List (List Char)
  | [] => [[]]
  | c :: cs =>
    if c = '\n' then [] :: splitOnNl cs
    else
      match splitOnNl cs with
      | chunk :: rest => (c :: chunk) :: rest
      | [] => [[c]]

/-- A matcher: given the remaining input, optionally return the
replacement (or separator) text together with the total number of
characters the match consumes.  Every matcher used below consumes at
least one character. -/
abbrev Matcher := List Char → Option (List Char × Nat)

/-- Global leftmost replacement (`String.replace(/pat/g, rep)`).
The second argument counts characters still to skip from the tail of the
current match; external calls use skip `0`. -/
def scanRep (f : Matcher) : List Char → Nat → List Char
  | [], _ => []
  | _ :: cs, k + 1 => scanRep f cs k
  | c :: cs, 0 =>
    match f (c :: cs) with
    | some (out, n) => out ++ scanRep f cs (n - 1)
    | none => c :: scanRep f cs 0

/-- `String.split(/(a|b|…)/)`: alternating text chunks and separator
matches, empty chunks included.  Skip-counter as in `scanRep`. -/
def splitKeep (f : Matcher) : List Char → Nat → List (List Char)
  | [], _ => [[]]
  | _ :: cs, k + 1 => splitKeep f cs k
  | c :: cs, 0 =>
    match f (c :: cs) with
    | some (sep, n) => [] :: sep :: splitKeep f cs (n - 1)
    | none =>
      match splitKeep f cs 0 with
      | chunk :: rest => (c :: chunk) :: rest
      | [] => [[c]]

/-- Matcher for a literal pattern. -/
def tryLit (pat rep : List Char) : Matcher := fun l =>
  if pfx pat l then some (rep, pat.length) else none

/-- Matcher for a pattern `pre … close` with a greedy `[^close]*` capture
(e.g. `\textbf\x7b([^\x7d]*)\x7d`): match `pre` literally, capture up to the
first `close`, fail if no `close` follows. -/
def tryCap (pre : List Char) (close : Char) (mk : List Char → List Char) : Matcher :=
  fun l =>
    if pfx pre l then
      let after := l.drop pre.length
      let cap := after.takeWhile (fun c => ¬ c = close)
      match after.drop cap.length with
      | _ :: _ => some (mk cap, pre.length + cap.length + 1)
      | [] => none
    else none

/-- Matcher for `\[,;:]` (backslash plus one thin-space punctuation). -/
def trySpace : Matcher := fun l =>
  match l with
  | c1 :: c2 :: _ =>
    if c1 = '\\' ∧ (c2 = ',' ∨ c2 = ';' ∨ c2 = ':') then some ([' '], 2) else none
  | _ => none

-- Sentinel marker constants, exactly as in the source.
def mENUM_START : List Char := "___ENUM_START___".data
def mENUM_END : List Char := "___ENUM_END___".data
def mLIST_START : List Char := "___LIST_START___".data
def mLIST_END : List Char := "___LIST_END___".data
def mITEM : List Char := "___ITEM___".data
def mITEM_LABEL_PRE : List Char := "___ITEM_LABEL_".data
def mUUU : List Char := "___".data
def mNEWLINE : List Char := "___NEWLINE___".data
def mBOLD_START : List Char := "___BOLD_START___".data
def mBOLD_END : List Char := "___BOLD_END___".data
def mITALIC_START : List Char := "___ITALIC_START___".data
def mITALIC_END : List Char := "___ITALIC_END___".data
def mUNDERLINE_START : List Char := "___UNDERLINE_START___".data
def mUNDERLINE_END : List Char := "___UNDERLINE_END___".data

/-- The default bullet label `'â€¢'`: the source file literally contains
the three characters U+00E2, U+20AC, U+00A2. -/
def bulletLabel : List Char := [Char.ofNat 226, Char.ofNat 8364, Char.ofNat 162]

/-- The first four replacements of `convertLatexToHtml` (source lines
33-38): the list-environment begin/end markers, in source order. -/
def convertEnvs (l : List Char) : List Char :=
  let s1 := scanRep (tryLit "\\begin\x7benumerate\x7d".data mENUM_START) l 0
  let s2 := scanRep (tryLit "\\end\x7benumerate\x7d".data mENUM_END) s1 0
  let s3 := scanRep (tryLit "\\begin\x7bitemize\x7d".data mLIST_START) s2 0
  scanRep (tryLit "\\end\x7bitemize\x7d".data mLIST_END) s3 0

/-- The item-marker replacements of `convertLatexToHtml` (source lines
40-42): labeled items first, then bare items. -/
def convertItems (l : List Char) : List Char :=
  let s5 := scanRep (tryCap "\\item[".data ']'
    (fun cap => mITEM_LABEL_PRE ++ cap ++ mUUU)) l 0
  scanRep (tryLit "\\item".data mITEM) s5 0

/-- The remaining replacements of `convertLatexToHtml` (source lines
44-62): line breaks, formatting, `\text`, and spacing. -/
def convertFmt (l : List Char) : List Char :=
  let s7 := scanRep (tryLit "\\\\".data mNEWLINE) l 0
  let s8 := scanRep (tryLit "\\newline".data mNEWLINE) s7 0
  let s9 := scanRep (tryCap "\\textbf\x7b".data '\x7d'
    (fun cap => mBOLD_START ++ cap ++ mBOLD_END)) s8 0
  let s10 := scanRep (tryCap "\\textit\x7b".data '\x7d'
    (fun cap => mITALIC_START ++ cap ++ mITALIC_END)) s9 0
  let s11 := scanRep (tryCap "\\underline\x7b".data '\x7d'
    (fun cap => mUNDERLINE_START ++ cap ++ mUNDERLINE_END)) s10 0
  let s12 := scanRep (tryCap "\\text\x7b".data '\x7d' (fun cap => cap)) s11 0
  let s13 := scanRep (tryLit "\\qquad".data "    ".data) s12 0
  let s14 := scanRep (tryLit "\\quad".data "  ".data) s13 0
  scanRep trySpace s14 0

/-- Source lines 40-62 combined. -/
def convertRest (l : List Char) : List Char :=
  convertFmt (convertItems l)

/-- `convertLatexToHtml` (source lines 29-64): the ordered chain of
global replacements. -/
def convertLatexToHtml (l : List Char) : List Char :=
  convertRest (convertEnvs l)

/-- The four delimiter syntaxes of `mathPattern`
(`\$\$([\s\S]*?)\$\$|\$([^$\n]+?)\$|\\\[([\s\S]*?)\\\]|\\\(([\s\S]*?)\\\)`),
in alternation order. -/
inductive MathKind where
  | dollarBlock
  | dollarInline
  | bracketBlock
  | parenInline
deriving DecidableEq, Repr

/-- Display mode: `$$…$$` and `\[…\]` are block math, the others inline. -/
def MathKind.display : MathKind → Bool
  | .dollarBlock => true
  | .bracketBlock => true
  | .dollarInline => false
  | .parenInline => false

/-- The opening delimiter of a math-span kind. -/
def MathKind.delimL : MathKind → List Char
  | .dollarBlock => "$$".data
  | .dollarInline => "$".data
  | .bracketBlock => "\\[".data
  | .parenInline => "\\(".data

/-- The closing delimiter of a math-span kind. -/
def MathKind.delimR : MathKind → List Char
  | .dollarBlock => "$$".data
  | .dollarInline => "$".data
  | .bracketBlock => "\\]".data
  | .parenInline => "\\)".data

/-- Split `l` at the first occurrence of the two-character closing
delimiter `a b` (the lazy `[\s\S]*?` capture): `some (cap, rest)` with
`l = cap ++ [a, b] ++ rest`, or `none` if the delimiter never occurs. -/
def splitAt2 (a b : Char) : List Char → Option (List Char × List Char)
  | [] => none
  | [_] => none
  | x :: y :: rest =>
    if x = a ∧ y = b then some ([], rest)
    else (splitAt2 a b (y :: rest)).map (fun p => (x :: p.1, p.2))

/-- The `\$([^$\n]+?)\$` tail: after an opening `$`, capture at least one
character that is neither `$` nor newline, up to a closing `$`. -/
def inlineCap (l : List Char) : Option (List Char) :=
  let content := l.takeWhile (fun c => ¬ c = '$' ∧ ¬ c = '\n')
  match l.dropWhile (fun c => ¬ c = '$' ∧ ¬ c = '\n') with
  | '$' :: _ => if content = [] then none else some content
  | _ => none

/-- One attempt of `mathPattern` at the current position: try the four
alternatives in order; on success return kind, capture and the number of
characters consumed by the whole match.  A `$$` with no closing `$$`
matches nothing at this position: the inline alternative would need at
least one character that is not `$` right after the opening `$`. -/
def tryMath : List Char → Option (MathKind × List Char × Nat)
  | [] => none
  | c1 :: rest =>
    if c1 = '$' then
      match rest with
      | c2 :: rest2 =>
        if c2 = '$' then
          (splitAt2 '$' '$' rest2).map (fun p => (.dollarBlock, p.1, 4 + p.1.length))
        else (inlineCap rest).map (fun cap => (.dollarInline, cap, 2 + cap.length))
      | [] => none
    else if c1 = '\\' then
      match rest with
      | c2 :: rest2 =>
        if c2 = '[' then
          (splitAt2 '\\' ']' rest2).map (fun p => (.bracketBlock, p.1, 4 + p.1.length))
        else if c2 = '(' then
          (splitAt2 '\\' ')' rest2).map (fun p => (.parenInline, p.1, 4 + p.1.length))
        else none
      | [] => none
    else none

/-- A piece of a body after math extraction: a run of plain text, or a
math span (kind and raw capture, not yet trimmed). -/
abbrev MathPiece := Sum (List Char) (MathKind × List Char)

/-- The `mathPattern.exec` loop: scan left to right, at each position try
`tryMath`; non-matching characters accumulate into maximal text chunks
(the substrings between `lastIndex` and the next match).  The `Nat`
argument is the skip counter for the tail of the current match. -/
def mathScan : List Char → Nat → List MathPiece
  | [], _ => []
  | _ :: cs, k + 1 => mathScan cs k
  | c :: cs, 0 =>
    match tryMath (c :: cs) with
    | some (kind, cap, n) => Sum.inr (kind, cap) :: mathScan cs (n - 1)
    | none =>
      match mathScan cs 0 with
      | Sum.inl chunk :: rest => Sum.inl (c :: chunk) :: rest
      | rest => Sum.inl [c] :: rest

/-- Inline-level renderable nodes: formatted text runs, line breaks,
successfully typeset math, and the `latex-error` literal fallback. -/
inductive INode where
  | text (s : List Char) (bold italic underline : Bool)
  | br
  | typeset (expr : List Char) (display : Bool)
  | errorFallback (s : List Char) (display : Bool)
deriving DecidableEq, Repr

/-- A list item: its label (`[]` when the item carries no label and no
bullet) and its rendered body. -/
structure Item where
  label : List Char
  body : List INode
deriving DecidableEq, Repr

/-- Top-level renderable nodes: inline nodes and list blocks. -/
inductive Node where
  | inline (n : INode)
  | list (items : List Item)
deriving DecidableEq, Repr

/-- `SafeInlineMath` / `SafeBlockMath` applied to one extracted span:
the capture is trimmed; if the backend `ok` typesets it, emit a typeset
node, otherwise the `latex-error` fallback `$e$` / `$$e$$` rebuilt from
the trimmed expression with dollar delimiters. -/
def renderMath (ok : List Char → Bool) (kind : MathKind) (cap : List Char) : INode :=
  let e := trimWS cap
  if ok e then .typeset e kind.display
  else if kind.display then .errorFallback ("$$".data ++ e ++ "$$".data) true
  else .errorFallback ("$".data ++ e ++ "$".data) false

/-- The six formatting-tag literals of `(<\/?[biu]>)`, as a matcher. -/
def tryTag : Matcher := fun l =>
  (tryLit "<b>".data "<b>".data l).orElse fun _ =>
  (tryLit "</b>".data "</b>".data l).orElse fun _ =>
  (tryLit "<i>".data "<i>".data l).orElse fun _ =>
  (tryLit "</i>".data "</i>".data l).orElse fun _ =>
  (tryLit "<u>".data "<u>".data l).orElse fun _ =>
  tryLit "</u>".data "</u>".data l

/-- The toggle fold over tag-split parts (source lines 228-248): each tag
flips its flag, nonempty text parts are emitted with the current flags. -/
def renderTagParts : List (List Char) → Bool → Bool → Bool → List INode
  | [], _, _, _ => []
  | p :: ps, b, i, u =>
    if p = "<b>".data then renderTagParts ps true i u
    else if p = "</b>".data then renderTagParts ps false i u
    else if p = "<i>".data then renderTagParts ps b true u
    else if p = "</i>".data then renderTagParts ps b false u
    else if p = "<u>".data then renderTagParts ps b i true
    else if p = "</u>".data then renderTagParts ps b i false
    else if p = [] then renderTagParts ps b i u
    else .text p b i u :: renderTagParts ps b i u

/-- One line of `renderPlainText`: if it contains an *opening* tag the
tag parser runs, otherwise the nonempty line is a single unstyled run. -/
def renderLine (line : List Char) : List INode :=
  if hasSub "<b>".data line ∨ hasSub "<i>".data line ∨ hasSub "<u>".data line then
    renderTagParts (splitKeep tryTag line 0) false false false
  else if line = [] then []
  else [.text line false false false]

/-- Interleave a `<br>` between the rendered lines. -/
def joinBr : List (List INode) → List INode
  | [] => []
  | [x] => x
  | x :: xs => x ++ .br :: joinBr xs

/-- `renderPlainText` (source lines 209-257). -/
def renderPlainText (l : List Char) : List INode :=
  joinBr ((splitOnNl l).map renderLine)

/-- `renderInlineContent` (source lines 151-206): resolve newline and
formatting sentinels to `\n` and HTML-ish tags, then extract math spans
and render the interleaving.  The source pushes a node only under
`if (blockMath) … else if (inlineMath)` where
`blockMath = match[1] || match[3]` and `inlineMath = match[2] || match[4]`:
an empty capture (`$$$$`, `\[\]`, `\(\)`) is falsy, so that span is
consumed by the scan but produces no node at all. -/
def renderInlineContent (ok : List Char → Bool) (l : List Char) : List INode :=
  let t1 := scanRep (tryLit mNEWLINE "\n".data) l 0
  let t2 := scanRep (tryLit mBOLD_START "<b>".data) t1 0
  let t3 := scanRep (tryLit mBOLD_END "</b>".data) t2 0
  let t4 := scanRep (tryLit mITALIC_START "<i>".data) t3 0
  let t5 := scanRep (tryLit mITALIC_END "</i>".data) t4 0
  let t6 := scanRep (tryLit mUNDERLINE_START "<u>".data) t5 0
  let t7 := scanRep (tryLit mUNDERLINE_END "</u>".data) t6 0
  (mathScan t7 0).flatMap fun piece =>
    match piece with
    | Sum.inl chunk => renderPlainText chunk
    | Sum.inr (kind, cap) =>
      if cap = [] then [] else [renderMath ok kind cap]

/-- The matcher of the item-boundary split
`(___ITEM_LABEL_[^_]*___|___ITEM___)`. -/
def tryItemSep : Matcher := fun l =>
  if pfx mITEM_LABEL_PRE l then
    let after := l.drop mITEM_LABEL_PRE.length
    let run := after.takeWhile (fun c => ¬ c = '_')
    if pfx mUUU (after.drop run.length) then
      some (mITEM_LABEL_PRE ++ run ++ mUUU, mITEM_LABEL_PRE.length + run.length + 3)
    else if pfx mITEM l then some (mITEM, mITEM.length) else none
  else if pfx mITEM l then some (mITEM, mITEM.length) else none

/-- Label of an item chunk, from the part preceding it (source lines
120-126): strip the first `___ITEM_LABEL_` and the first `___` from a
label marker, use the bullet for a bare `___ITEM___`, else no label. -/
def labelOfPrev (prev : List Char) : List Char :=
  if pfx mITEM_LABEL_PRE prev then
    replaceFirst mUUU [] (replaceFirst mITEM_LABEL_PRE [] prev)
  else if prev = mITEM then bulletLabel
  else []

/-- The `itemParts.forEach` loop (source lines 109-137): `prev` is the
previous part (initially empty) and `first` whether the current part is
at index `0`.  Marker parts are skipped; a text chunk becomes an item
only when its trimmed content is nonempty and it has a label or is the
first chunk. -/
def itemsLoop (ok : List Char → Bool) :
    List (List Char) → List Char → Bool → List Item
  | [], _, _ => []
  | p :: ps, prev, first =>
    if pfx mITEM_LABEL_PRE p then itemsLoop ok ps p false
    else if p = mITEM then itemsLoop ok ps p false
    else
      let label := labelOfPrev prev
      let t := trimWS p
      (if ¬ t = [] ∧ (¬ label = [] ∨ first) then
        [⟨label, renderInlineContent ok t⟩]
      else []) ++ itemsLoop ok ps p false

/-- The matcher of the environment split
`(___ENUM_START___|___ENUM_END___|___LIST_START___|___LIST_END___)`. -/
def tryEnvSep : Matcher := fun l =>
  (tryLit mENUM_START mENUM_START l).orElse fun _ =>
  (tryLit mENUM_END mENUM_END l).orElse fun _ =>
  (tryLit mLIST_START mLIST_START l).orElse fun _ =>
  tryLit mLIST_END mLIST_END l

/-- The `enumParts.forEach` loop (source lines 87-145).  A start marker
enters list mode and resets the item accumulator; an end marker pushes
the accumulated items (only if nonempty) and leaves list mode *without*
clearing the accumulator; in list mode a part is split into items; out
of list mode a part with nonempty trim renders inline.  When the parts
run out, accumulated items of an unterminated list are discarded. -/
def renderParts (ok : List Char → Bool) :
    List (List Char) → Bool → List Item → List Node
  | [], _, _ => []
  | p :: ps, inList, items =>
    if p = mENUM_START ∨ p = mLIST_START then renderParts ok ps true []
    else if p = mENUM_END ∨ p = mLIST_END then
      (if items.isEmpty then [] else [Node.list items]) ++
        renderParts ok ps false items
    else if inList then
      renderParts ok ps true (items ++ itemsLoop ok (splitKeep tryItemSep p 0) [] true)
    else
      (let t := trimWS p
       if t = [] then [] else (renderInlineContent ok t).map Node.inline) ++
        renderParts ok ps inList items

/-- The whole component: empty content renders nothing; otherwise
normalize, split on list markers, and render the parts. -/
def render (ok : List Char → Bool) (content : String) : List Node :=
  if content.data = [] then []
  else renderParts ok (splitKeep tryEnvSep (convertLatexToHtml content.data) 0) false []

/-- The raw source text a math piece stands for: a text chunk is itself,
a math span is its capture put back between its delimiters. -/
def pieceRaw : MathPiece → List Char
  | Sum.inl chunk => chunk
  | Sum.inr (k, cap) => k.delimL ++ cap ++ k.delimR

/-- Is a math piece a block (display-mode) span? -/
def isBlockPiece : MathPiece → Bool
  | Sum.inr (k, _) => k.display
  | Sum.inl _ => false

/-- Pointwise effect of a failing backend on an inline node: a typeset
node whose expression the backend rejects becomes the dollar-delimited
`latex-error` fallback; every other node is untouched. -/
def degrade (ok : List Char → Bool) : INode → INode
  | .typeset e d =>
    if ok e then .typeset e d
    else if d then .errorFallback ("$$".data ++ e ++ "$$".data) true
    else .errorFallback ("$".data ++ e ++ "$".data) false
  | n => n

/-! ### Scanner lemmas -/

theorem pfx_append_self (p t : List Char) : pfx p (p ++ t) = true := by
  induction p with
  | nil => rfl
  | cons a as ih => simp [pfx, ih]

theorem pfx_of_append {p x : List Char} (y : List Char)
    (h : pfx p (x ++ y) = true) : pfx p x = true ∨ pfx x p = true := by
  induction p generalizing x with
  | nil => exact Or.inl rfl
  | cons a as ih =>
    cases x with
    | nil => exact Or.inr rfl
    | cons b bs =>
      simp only [List.cons_append, pfx] at h ⊢
      by_cases hab : a = b
      · subst hab
        simp only [if_pos rfl] at h ⊢
        rcases ih h with h' | h'
        · exact Or.inl h'
        · exact Or.inr (by simpa [pfx] using h')
      · simp [hab] at h

theorem pfx_append_false {p x : List Char} (y : List Char)
    (h1 : pfx p x = false) (h2 : pfx x p = false) : pfx p (x ++ y) = false := by
  cases h : pfx p (x ++ y) with
  | false => rfl
  | true =>
    rcases pfx_of_append y h with h' | h'
    · rw [h1] at h'; cases h'
    · rw [h2] at h'; cases h'

theorem mem_of_pfx_head {p : Char} {ps l : List Char}
    (h : pfx (p :: ps) l = true) : p ∈ l := by
  cases l with
  | nil => cases h
  | cons c cs =>
    simp only [pfx] at h
    by_cases hpc : p = c
    · exact hpc ▸ List.mem_cons_self c cs
    · simp [hpc] at h

theorem pfx_false_of_head {p : Char} {ps l : List Char}
    (h : p ∉ l) : pfx (p :: ps) l = false := by
  cases hp : pfx (p :: ps) l with
  | false => rfl
  | true => exact absurd (mem_of_pfx_head hp) h

theorem pfx_false_of_head' {pat l : List Char} {a : Char}
    (hp : pat.head? = some a) (h : a ∉ l) : pfx pat l = false := by
  cases pat with
  | nil => cases hp
  | cons p ps =>
    have : p = a := by simpa using hp
    subst this
    exact pfx_false_of_head h

theorem ne_of_head' {l m : List Char} {a b : Char}
    (hl : l.head? = some a) (hm : m.head? = some b) (hab : ¬ a = b) :
    ¬ l = m := by
  intro he
  rw [he, hm] at hl
  exact hab (Option.some.inj hl).symm

theorem tryLit_eq_none {pat l : List Char} (rep : List Char)
    (h : pfx pat l = false) : tryLit pat rep l = none := by
  simp [tryLit, h]

theorem tryLit_eq_some (pat rep t : List Char) :
    tryLit pat rep (pat ++ t) = some (rep, pat.length) := by
  simp [tryLit, pfx_append_self]

theorem tryCap_eq_none {pre l : List Char} (close : Char)
    (mk : List Char → List Char) (h : pfx pre l = false) :
    tryCap pre close mk l = none := by
  simp [tryCap, h]

theorem scanRep_nil (f : Matcher) (k : Nat) : scanRep f [] k = [] := rfl

theorem scanRep_succ (f : Matcher) (c : Char) (cs : List Char) (k : Nat) :
    scanRep f (c :: cs) (k + 1) = scanRep f cs k := rfl

theorem scanRep_none {f : Matcher} {c : Char} {cs : List Char}
    (h : f (c :: cs) = none) :
    scanRep f (c :: cs) 0 = c :: scanRep f cs 0 := by
  simp [scanRep, h]

theorem scanRep_some {f : Matcher} {c : Char} {cs out : List Char} {n : Nat}
    (h : f (c :: cs) = some (out, n)) :
    scanRep f (c :: cs) 0 = out ++ scanRep f cs (n - 1) := by
  simp [scanRep, h]

theorem scanRep_skipCount (f : Matcher) (x t : List Char) :
    scanRep f (x ++ t) x.length = scanRep f t 0 := by
  induction x with
  | nil => rfl
  | cons c cs ih => simpa [scanRep_succ] using ih

theorem scanRep_pass {f : Matcher} {x : List Char} (y : List Char)
    (h : ∀ c ∈ x, ∀ t, f (c :: t) = none) :
    scanRep f (x ++ y) 0 = x ++ scanRep f y 0 := by
  induction x with
  | nil => rfl
  | cons c cs ih =>
    rw [List.cons_append, scanRep_none (h c (List.mem_cons_self c cs) _),
      ih fun c' hc' => h c' (List.mem_cons_of_mem c hc')]
    rfl

theorem scanRep_id {f : Matcher} {x : List Char}
    (h : ∀ c ∈ x, ∀ t, f (c :: t) = none) : scanRep f x 0 = x := by
  have := @scanRep_pass f x [] h
  simpa [scanRep_nil] using this

theorem scanRep_match_head {f : Matcher} {p out : List Char} (t : List Char)
    (hp : p ≠ []) (h : f (p ++ t) = some (out, p.length)) :
    scanRep f (p ++ t) 0 = out ++ scanRep f t 0 := by
  cases p with
  | nil => exact absurd rfl hp
  | cons c cs =>
    rw [List.cons_append] at h
    rw [List.cons_append, scanRep_some h]
    simp only [List.length_cons, Nat.add_sub_cancel]
    rw [scanRep_skipCount]

theorem splitKeep_nil (f : Matcher) (k : Nat) : splitKeep f [] k = [[]] := rfl

theorem splitKeep_succ (f : Matcher) (c : Char) (cs : List Char) (k : Nat) :
    splitKeep f (c :: cs) (k + 1) = splitKeep f cs k := rfl

theorem splitKeep_none {f : Matcher} {c : Char} {cs : List Char}
    (h : f (c :: cs) = none) :
    splitKeep f (c :: cs) 0 =
      match splitKeep f cs 0 with
      | chunk :: rest => (c :: chunk) :: rest
      | [] => [[c]] := by
  simp [splitKeep, h]

theorem splitKeep_some {f : Matcher} {c : Char} {cs sep : List Char} {n : Nat}
    (h : f (c :: cs) = some (sep, n)) :
    splitKeep f (c :: cs) 0 = [] :: sep :: splitKeep f cs (n - 1) := by
  simp [splitKeep, h]

theorem splitKeep_skipCount (f : Matcher) (x t : List Char) :
    splitKeep f (x ++ t) x.length = splitKeep f t 0 := by
  induction x with
  | nil => rfl
  | cons c cs ih => simpa [splitKeep_succ] using ih

theorem splitKeep_pass {f : Matcher} {x y chunk : List Char}
    {rest : List (List Char)}
    (h : ∀ c ∈ x, ∀ t, f (c :: t) = none)
    (hy : splitKeep f y 0 = chunk :: rest) :
    splitKeep f (x ++ y) 0 = (x ++ chunk) :: rest := by
  induction x with
  | nil => simpa using hy
  | cons c cs ih =>
    rw [List.cons_append, splitKeep_none (h c (List.mem_cons_self c cs) _),
      ih fun c' hc' => h c' (List.mem_cons_of_mem c hc')]
    rfl

theorem splitKeep_all_none {f : Matcher} {x : List Char}
    (h : ∀ c ∈ x, ∀ t, f (c :: t) = none) : splitKeep f x 0 = [x] := by
  have := @splitKeep_pass f x [] [] [] h rfl
  simpa using this

theorem splitKeep_match_head {f : Matcher} {p sep : List Char} (t : List Char)
    (hp : p ≠ []) (h : f (p ++ t) = some (sep, p.length)) :
    splitKeep f (p ++ t) 0 = [] :: sep :: splitKeep f t 0 := by
  cases p with
  | nil => exact absurd rfl hp
  | cons c cs =>
    rw [List.cons_append] at h
    rw [List.cons_append, splitKeep_some h]
    simp only [List.length_cons, Nat.add_sub_cancel]
    rw [splitKeep_skipCount]

theorem pfx_head_ne {a c : Char} (h : ¬ a = c) (as t : List Char) :
    pfx (a :: as) (c :: t) = false := by
  simp [pfx, h]

theorem tryLit_skip (pat rep : List Char) (a : Char) (hp : pat.head? = some a)
    {c : Char} (hca : ¬ c = a) (t : List Char) : tryLit pat rep (c :: t) = none := by
  cases pat with
  | nil => cases hp
  | cons p ps =>
    have : p = a := by simpa using hp
    subst this
    exact tryLit_eq_none rep (pfx_head_ne (fun h => hca h.symm) ps t)

theorem tryCap_skip (pre : List Char) (close : Char) (mk : List Char → List Char)
    (a : Char) (hp : pre.head? = some a) {c : Char} (hca : ¬ c = a) (t : List Char) :
    tryCap pre close mk (c :: t) = none := by
  cases pre with
  | nil => cases hp
  | cons p ps =>
    have : p = a := by simpa using hp
    subst this
    exact tryCap_eq_none close mk (pfx_head_ne (fun h => hca h.symm) ps t)

theorem trySpace_skip {c : Char} (hc : ¬ c = '\\') (t : List Char) :
    trySpace (c :: t) = none := by
  cases t with
  | nil => rfl
  | cons c2 t' => simp [trySpace, hc]

theorem tryEnvSep_skip {c : Char} (hc : ¬ c = '_') (t : List Char) :
    tryEnvSep (c :: t) = none := by
  simp [tryEnvSep, tryLit_skip mENUM_START mENUM_START '_' rfl hc,
    tryLit_skip mENUM_END mENUM_END '_' rfl hc,
    tryLit_skip mLIST_START mLIST_START '_' rfl hc,
    tryLit_skip mLIST_END mLIST_END '_' rfl hc, Option.orElse]

theorem tryItemSep_skip {c : Char} (hc : ¬ c = '_') (t : List Char) :
    tryItemSep (c :: t) = none := by
  have h1 : pfx mITEM_LABEL_PRE (c :: t) = false :=
    pfx_head_ne (fun h => hc h.symm) _ t
  have h2 : pfx mITEM (c :: t) = false :=
    pfx_head_ne (fun h => hc h.symm) _ t
  simp [tryItemSep, h1, h2]

theorem tryTag_skip {c : Char} (hc : ¬ c = '<') (t : List Char) :
    tryTag (c :: t) = none := by
  simp [tryTag, tryLit_skip "<b>".data "<b>".data '<' rfl hc,
    tryLit_skip "</b>".data "</b>".data '<' rfl hc,
    tryLit_skip "<i>".data "<i>".data '<' rfl hc,
    tryLit_skip "</i>".data "</i>".data '<' rfl hc,
    tryLit_skip "<u>".data "<u>".data '<' rfl hc,
    tryLit_skip "</u>".data "</u>".data '<' rfl hc, Option.orElse]

theorem tryMath_skip {c : Char} (h1 : ¬ c = '$') (h2 : ¬ c = '\\')
    (t : List Char) : tryMath (c :: t) = none := by
  simp [tryMath, h1, h2]

/-! ### Plain-text helper lemmas -/

theorem trimWS_nil : trimWS [] = [] := rfl

theorem mem_trimWS {c : Char} {l : List Char} (h : c ∈ trimWS l) : c ∈ l := by
  unfold trimWS at h
  rw [List.mem_reverse] at h
  have h2 := (List.dropWhile_sublist _).mem h
  rw [List.mem_reverse] at h2
  exact (List.dropWhile_sublist _).mem h2

theorem splitOnNl_no_nl {l : List Char} (h : ∀ c ∈ l, ¬ c = '\n') :
    splitOnNl l = [l] := by
  induction l with
  | nil => rfl
  | cons c cs ih =>
    rw [splitOnNl, if_neg (h c (List.mem_cons_self c cs)),
      ih fun c' hc' => h c' (List.mem_cons_of_mem c hc')]

theorem hasSub_false {p : Char} {ps l : List Char} (h : p ∉ l) :
    hasSub (p :: ps) l = false := by
  induction l with
  | nil => rfl
  | cons c cs ih =>
    have hpc : ¬ p = c := fun he => h (he ▸ List.mem_cons_self c cs)
    rw [hasSub, if_neg (by simp [pfx_head_ne hpc])]
    exact ih fun hm => h (List.mem_cons_of_mem c hm)

/-! ### Math-scan lemmas -/

theorem mathScan_nil (k : Nat) : mathScan [] k = [] := rfl

theorem mathScan_succ (c : Char) (cs : List Char) (k : Nat) :
    mathScan (c :: cs) (k + 1) = mathScan cs k := rfl

theorem mathScan_none {c : Char} {cs : List Char}
    (h : tryMath (c :: cs) = none) :
    mathScan (c :: cs) 0 =
      match mathScan cs 0 with
      | Sum.inl chunk :: rest => Sum.inl (c :: chunk) :: rest
      | rest => Sum.inl [c] :: rest := by
  simp [mathScan, h]

theorem mathScan_some {c : Char} {cs cap : List Char} {k : MathKind} {n : Nat}
    (h : tryMath (c :: cs) = some (k, cap, n)) :
    mathScan (c :: cs) 0 = Sum.inr (k, cap) :: mathScan cs (n - 1) := by
  simp [mathScan, h]

theorem mathScan_skipCount (x t : List Char) :
    mathScan (x ++ t) x.length = mathScan t 0 := by
  induction x with
  | nil => rfl
  | cons c cs ih => simpa [mathScan_succ] using ih

theorem mathScan_chunk {x : List Char} (y : List Char)
    (h : ∀ c ∈ x, ¬ c = '$' ∧ ¬ c = '\\') (hx : x ≠ []) :
    mathScan (x ++ y) 0 =
      match mathScan y 0 with
      | Sum.inl chunk :: rest => Sum.inl (x ++ chunk) :: rest
      | rest => Sum.inl x :: rest := by
  induction x with
  | nil => exact absurd rfl hx
  | cons c cs ih =>
    have hc := h c (List.mem_cons_self c cs)
    rw [List.cons_append, mathScan_none (tryMath_skip hc.1 hc.2 _)]
    cases hcs : cs with
    | nil =>
      simp only [List.nil_append]
      cases hy : mathScan y 0 with
      | nil => rfl
      | cons p rest => cases p <;> rfl
    | cons c' cs' =>
      rw [← hcs, ih (fun a ha => h a (List.mem_cons_of_mem c ha)) (by simp [hcs])]
      cases hy : mathScan y 0 with
      | nil => rfl
      | cons p rest => cases p <;> rfl

theorem mathScan_all_chunk {x : List Char}
    (h : ∀ c ∈ x, ¬ c = '$' ∧ ¬ c = '\\') (hx : x ≠ []) :
    mathScan x 0 = [Sum.inl x] := by
  have := mathScan_chunk [] h hx
  simpa using this

theorem splitAt2_spec {a b : Char} :
    ∀ {l u v : List Char}, splitAt2 a b l = some (u, v) → l = u ++ a :: b :: v := by
  intro l
  induction l with
  | nil => intro u v h; cases h
  | cons x xs ih =>
    intro u v h
    cases xs with
    | nil => cases h
    | cons y rest =>
      rw [splitAt2] at h
      by_cases hab : x = a ∧ y = b
      · rw [if_pos hab] at h
        cases h
        simp [hab.1, hab.2]
      · rw [if_neg hab] at h
        cases hu : splitAt2 a b (y :: rest) with
        | none => rw [hu] at h; cases h
        | some p =>
          rw [hu] at h
          cases h
          have := ih hu
          simp [this]

theorem inlineCap_spec {l cap : List Char} (h : inlineCap l = some cap) :
    ∃ r, l = cap ++ '$' :: r := by
  unfold inlineCap at h
  split at h
  case _ tail heq =>
    dsimp only at h
    split at h
    · cases h
    · injection h with h'
      refine ⟨tail, ?_⟩
      have hl := @List.takeWhile_append_dropWhile Char
        (fun c => decide (¬ c = '$' ∧ ¬ c = '\n')) l
      rw [heq] at hl
      rw [← hl, h']
  case _ => cases h

theorem tryMath_spec {l cap : List Char} {k : MathKind} {n : Nat}
    (h : tryMath l = some (k, cap, n)) :
    ∃ rest, l = k.delimL ++ cap ++ k.delimR ++ rest ∧
      n = (k.delimL ++ cap ++ k.delimR).length := by
  cases l with
  | nil => cases h
  | cons c1 rest =>
    simp only [tryMath] at h
    by_cases hd : c1 = '$'
    · rw [if_pos hd] at h
      subst hd
      cases rest with
      | nil => cases h
      | cons c2 rest2 =>
        dsimp only at h
        by_cases hd2 : c2 = '$'
        · rw [if_pos hd2] at h
          subst hd2
          rw [Option.map_eq_some'] at h
          obtain ⟨⟨u, v⟩, hsp, heq⟩ := h
          cases heq
          have := splitAt2_spec hsp
          refine ⟨v, ?_, ?_⟩
          · simp [MathKind.delimL, MathKind.delimR, this]
          · simp [MathKind.delimL, MathKind.delimR]
            omega
        · rw [if_neg hd2] at h
          rw [Option.map_eq_some'] at h
          obtain ⟨u, hsp, heq⟩ := h
          cases heq
          obtain ⟨r, hr⟩ := inlineCap_spec hsp
          refine ⟨r, ?_, ?_⟩
          · simp [MathKind.delimL, MathKind.delimR, hr]
          · simp [MathKind.delimL, MathKind.delimR]
            omega
    · rw [if_neg hd] at h
      by_cases hb : c1 = '\\'
      · rw [if_pos hb] at h
        subst hb
        cases rest with
        | nil => cases h
        | cons c2 rest2 =>
          dsimp only at h
          by_cases hbr : c2 = '['
          · rw [if_pos hbr] at h
            subst hbr
            rw [Option.map_eq_some'] at h
            obtain ⟨⟨u, v⟩, hsp, heq⟩ := h
            cases heq
            have := splitAt2_spec hsp
            refine ⟨v, ?_, ?_⟩
            · simp [MathKind.delimL, MathKind.delimR, this]
            · simp [MathKind.delimL, MathKind.delimR]
              omega
          · rw [if_neg hbr] at h
            by_cases hpr : c2 = '('
            · rw [if_pos hpr] at h
              subst hpr
              rw [Option.map_eq_some'] at h
              obtain ⟨⟨u, v⟩, hsp, heq⟩ := h
              cases heq
              have := splitAt2_spec hsp
              refine ⟨v, ?_, ?_⟩
              · simp [MathKind.delimL, MathKind.delimR, this]
              · simp [MathKind.delimL, MathKind.delimR]
                omega
            · rw [if_neg hpr] at h
              cases h
      · rw [if_neg hb] at h
        cases h

theorem mathScan_flatten_aux :
    ∀ (n : Nat) (l : List Char), l.length ≤ n →
      ((mathScan l 0).map pieceRaw).flatten = l := by
  intro n
  induction n with
  | zero =>
    intro l hl
    have : l = [] := List.eq_nil_of_length_eq_zero (Nat.le_zero.mp hl)
    subst this
    rfl
  | succ n ih =>
    intro l hl
    cases l with
    | nil => rfl
    | cons c cs =>
      have hcs : cs.length ≤ n := by
        simpa using Nat.le_of_succ_le_succ (by simpa using hl)
      cases htm : tryMath (c :: cs) with
      | none =>
        rw [mathScan_none htm]
        have ihcs := ih cs hcs
        cases hm : mathScan cs 0 with
        | nil =>
          rw [hm] at ihcs
          simp only [List.map_nil, List.flatten_nil] at ihcs
          simp [pieceRaw, ← ihcs]
        | cons p rest =>
          rw [hm] at ihcs
          cases p with
          | inl chunk =>
            simp only [List.map_cons, List.flatten_cons, pieceRaw] at ihcs ⊢
            rw [← ihcs]
            simp
          | inr q =>
            simp only [List.map_cons, List.flatten_cons, pieceRaw] at ihcs ⊢
            rw [← ihcs]
            simp
      | some trip =>
        obtain ⟨k, cap, n'⟩ := trip
        rw [mathScan_some htm]
        obtain ⟨rest, hl', hn⟩ := tryMath_spec htm
        have hraw : k.delimL ++ cap ++ k.delimR ≠ [] := by
          cases k <;> simp [MathKind.delimL, MathKind.delimR]
        cases hr : k.delimL ++ cap ++ k.delimR with
        | nil => exact absurd hr hraw
        | cons r0 raw' =>
          rw [hr, List.cons_append] at hl'
          rw [hr] at hn
          have hc0 : c = r0 := by injection hl'
          have hcs' : cs = raw' ++ rest := by injection hl'
          have hskip : mathScan cs (n' - 1) = mathScan rest 0 := by
            rw [hcs', hn]
            simp only [List.length_cons, Nat.add_sub_cancel]
            exact mathScan_skipCount raw' rest
          rw [hskip]
          have hrest : rest.length ≤ n := by
            have : rest.length ≤ cs.length := by
              rw [hcs']
              simp
            omega
          simp only [List.map_cons, List.flatten_cons, pieceRaw]
          rw [ih rest hrest, hr, List.cons_append, hc0, hcs']

/-! ### Failure-degradation lemmas (for the error-containment claim) -/

theorem degrade_renderMath (ok : List Char → Bool) (k : MathKind)
    (cap : List Char) :
    degrade ok (renderMath (fun _ => true) k cap) = renderMath ok k cap := by
  by_cases h : ok (trimWS cap) <;>
    cases hd : k.display <;>
      simp [renderMath, degrade, h, hd]

theorem degrade_renderTagParts (ok : List Char → Bool) :
    ∀ (ps : List (List Char)) (b i u : Bool),
      (renderTagParts ps b i u).map (degrade ok) = renderTagParts ps b i u := by
  intro ps
  induction ps with
  | nil => intro b i u; rfl
  | cons p ps ih =>
    intro b i u
    rw [renderTagParts]
    repeat' split
    all_goals simp [degrade, ih]

theorem degrade_renderLine (ok : List Char → Bool) (x : List Char) :
    (renderLine x).map (degrade ok) = renderLine x := by
  rw [renderLine]
  repeat' split
  · exact degrade_renderTagParts ok _ false false false
  · rfl
  · simp [degrade]

theorem degrade_joinBr (ok : List Char → Bool) :
    ∀ xs : List (List INode), (∀ x ∈ xs, x.map (degrade ok) = x) →
      (joinBr xs).map (degrade ok) = joinBr xs := by
  intro xs
  induction xs with
  | nil => intro _; rfl
  | cons x xs ih =>
    intro h
    cases xs with
    | nil => simpa [joinBr] using h x (List.mem_cons_self x [])
    | cons y ys =>
      have hx := h x (List.mem_cons_self x _)
      have hrest := ih fun z hz => h z (List.mem_cons_of_mem x hz)
      show (x ++ INode.br :: joinBr (y :: ys)).map (degrade ok) =
        x ++ INode.br :: joinBr (y :: ys)
      rw [List.map_append, hx, List.map_cons, hrest]
      rfl

theorem degrade_renderPlainText (ok : List Char → Bool) (x : List Char) :
    (renderPlainText x).map (degrade ok) = renderPlainText x := by
  unfold renderPlainText
  refine degrade_joinBr ok _ ?_
  intro y hy
  rw [List.mem_map] at hy
  obtain ⟨line, _, rfl⟩ := hy
  exact degrade_renderLine ok line

theorem degrade_flatMap (ok : List Char → Bool) :
    ∀ ps : List MathPiece,
      (ps.flatMap fun piece =>
        match piece with
        | Sum.inl chunk => renderPlainText chunk
        | Sum.inr (kind, cap) =>
          if cap = [] then [] else [renderMath ok kind cap]) =
      (ps.flatMap fun piece =>
        match piece with
        | Sum.inl chunk => renderPlainText chunk
        | Sum.inr (kind, cap) =>
          if cap = [] then []
          else [renderMath (fun _ => true) kind cap]).map
          (degrade ok) := by
  intro ps
  induction ps with
  | nil => rfl
  | cons p ps ih =>
    rw [List.flatMap_cons, List.flatMap_cons, List.map_append, ← ih]
    cases p with
    | inl chunk => rw [degrade_renderPlainText]
    | inr q =>
      obtain ⟨kind, cap⟩ := q
      dsimp only
      by_cases hcap : cap = []
      · rw [if_pos hcap, if_pos hcap]
        rfl
      · rw [if_neg hcap, if_neg hcap]
        simp only [List.map_cons, List.map_nil]
        rw [degrade_renderMath]

/-! ### Identity lemmas over inert text -/

theorem convertEnvs_id {l : List Char} (h : ∀ c ∈ l, ¬ c = '\\') :
    convertEnvs l = l := by
  have hlit : ∀ pat rep : List Char, pat.head? = some '\\' →
      scanRep (tryLit pat rep) l 0 = l := fun pat rep hp =>
    scanRep_id fun c hc t => tryLit_skip pat rep '\\' hp (h c hc) t
  simp only [convertEnvs]
  rw [hlit "\\begin\x7benumerate\x7d".data mENUM_START rfl,
    hlit "\\end\x7benumerate\x7d".data mENUM_END rfl,
    hlit "\\begin\x7bitemize\x7d".data mLIST_START rfl,
    hlit "\\end\x7bitemize\x7d".data mLIST_END rfl]

theorem convertItems_id {l : List Char} (h : ∀ c ∈ l, ¬ c = '\\') :
    convertItems l = l := by
  have hlit : ∀ pat rep : List Char, pat.head? = some '\\' →
      scanRep (tryLit pat rep) l 0 = l := fun pat rep hp =>
    scanRep_id fun c hc t => tryLit_skip pat rep '\\' hp (h c hc) t
  have hcap : ∀ (pre : List Char) (close : Char) (mk : List Char → List Char),
      pre.head? = some '\\' → scanRep (tryCap pre close mk) l 0 = l :=
    fun pre close mk hp =>
      scanRep_id fun c hc t => tryCap_skip pre close mk '\\' hp (h c hc) t
  simp only [convertItems]
  rw [hcap "\\item[".data ']' (fun cap => mITEM_LABEL_PRE ++ cap ++ mUUU) rfl,
    hlit "\\item".data mITEM rfl]

theorem convertFmt_id {l : List Char} (h : ∀ c ∈ l, ¬ c = '\\') :
    convertFmt l = l := by
  have hlit : ∀ pat rep : List Char, pat.head? = some '\\' →
      scanRep (tryLit pat rep) l 0 = l := fun pat rep hp =>
    scanRep_id fun c hc t => tryLit_skip pat rep '\\' hp (h c hc) t
  have hcap : ∀ (pre : List Char) (close : Char) (mk : List Char → List Char),
      pre.head? = some '\\' → scanRep (tryCap pre close mk) l 0 = l :=
    fun pre close mk hp =>
      scanRep_id fun c hc t => tryCap_skip pre close mk '\\' hp (h c hc) t
  have hsp : scanRep trySpace l 0 = l :=
    scanRep_id fun c hc t => trySpace_skip (h c hc) t
  simp only [convertFmt]
  rw [hlit "\\\\".data mNEWLINE rfl,
    hlit "\\newline".data mNEWLINE rfl,
    hcap "\\textbf\x7b".data '\x7d' (fun cap => mBOLD_START ++ cap ++ mBOLD_END) rfl,
    hcap "\\textit\x7b".data '\x7d' (fun cap => mITALIC_START ++ cap ++ mITALIC_END) rfl,
    hcap "\\underline\x7b".data '\x7d'
      (fun cap => mUNDERLINE_START ++ cap ++ mUNDERLINE_END) rfl,
    hcap "\\text\x7b".data '\x7d' (fun cap => cap) rfl,
    hlit "\\qquad".data "    ".data rfl,
    hlit "\\quad".data "  ".data rfl, hsp]

theorem convertRest_id {l : List Char} (h : ∀ c ∈ l, ¬ c = '\\') :
    convertRest l = l := by
  rw [convertRest, convertItems_id h, convertFmt_id h]

theorem convertLatexToHtml_id {l : List Char} (h : ∀ c ∈ l, ¬ c = '\\') :
    convertLatexToHtml l = l := by
  rw [convertLatexToHtml, convertEnvs_id h, convertRest_id h]

theorem renderInlineContent_plain (ok : List Char → Bool) {x : List Char}
    (hbs : '\\' ∉ x) (hds : '$' ∉ x) (hus : '_' ∉ x) (hnl : '\n' ∉ x)
    (hlt : '<' ∉ x) (hx : x ≠ []) :
    renderInlineContent ok x = [.text x false false false] := by
  have hrep : ∀ pat rep : List Char, pat.head? = some '_' →
      scanRep (tryLit pat rep) x 0 = x := fun pat rep hp =>
    scanRep_id fun c hc t =>
      tryLit_skip pat rep '_' hp (fun he => hus (he ▸ hc)) t
  have h1 : hasSub "<b>".data x = false := hasSub_false hlt
  have h2 : hasSub "<i>".data x = false := hasSub_false hlt
  have h3 : hasSub "<u>".data x = false := hasSub_false hlt
  simp only [renderInlineContent]
  rw [hrep mNEWLINE "\n".data rfl, hrep mBOLD_START "<b>".data rfl,
    hrep mBOLD_END "</b>".data rfl, hrep mITALIC_START "<i>".data rfl,
    hrep mITALIC_END "</i>".data rfl, hrep mUNDERLINE_START "<u>".data rfl,
    hrep mUNDERLINE_END "</u>".data rfl]
  rw [mathScan_all_chunk
    (fun c hc => ⟨fun he => hds (he ▸ hc), fun he => hbs (he ▸ hc)⟩) hx]
  rw [List.flatMap_cons, List.flatMap_nil, List.append_nil]
  show renderPlainText x = [INode.text x false false false]
  unfold renderPlainText
  rw [splitOnNl_no_nl (fun c hc he => hnl (he ▸ hc))]
  rw [List.map_cons, List.map_nil]
  show renderLine x = _
  simp [renderLine, h1, h2, h3, hx]

theorem renderParts_nil (ok : List Char → Bool) (b : Bool) (items : List Item) :
    renderParts ok [] b items = [] := rfl

theorem renderParts_single (ok : List Char → Bool) {p : List Char}
    (hus : '_' ∉ p) :
    renderParts ok [p] false [] =
      if trimWS p = [] then []
      else (renderInlineContent ok (trimWS p)).map Node.inline := by
  have g1 : ¬ (p = mENUM_START ∨ p = mLIST_START) := by
    rintro (he | he)
    · exact hus (he ▸ (by decide : '_' ∈ mENUM_START))
    · exact hus (he ▸ (by decide : '_' ∈ mLIST_START))
  have g2 : ¬ (p = mENUM_END ∨ p = mLIST_END) := by
    rintro (he | he)
    · exact hus (he ▸ (by decide : '_' ∈ mENUM_END))
    · exact hus (he ▸ (by decide : '_' ∈ mLIST_END))
  rw [renderParts, if_neg g1, if_neg g2, if_neg (by simp)]
  rw [renderParts_nil]
  by_cases ht : trimWS p = [] <;> simp [ht]

/-! ### Wrapped-content lemmas (list environments around inert content) -/

theorem scanRep_pre_skip (f : Matcher) {c0 : Char} {tail : List Char}
    (h0 : ∀ t, f (c0 :: (tail ++ t)) = none)
    (htail : ∀ c ∈ tail, ∀ t, f (c :: t) = none) (t : List Char) :
    scanRep f ((c0 :: tail) ++ t) 0 = (c0 :: tail) ++ scanRep f t 0 := by
  rw [List.cons_append, scanRep_none (h0 t), scanRep_pass t htail]
  rfl

theorem convertEnvs_enumWrap {l : List Char} (h : ∀ c ∈ l, ¬ c = '\\') :
    convertEnvs
        ("\\begin\x7benumerate\x7d".data ++ (l ++ "\\end\x7benumerate\x7d".data)) =
      mENUM_START ++ (l ++ mENUM_END) := by
  have hm1 : ∀ c ∈ mENUM_START, ¬ c = '\\' := by decide
  have hm2 : ∀ c ∈ mENUM_END, ¬ c = '\\' := by decide
  have hall : ∀ c ∈ mENUM_START ++ (l ++ mENUM_END), ¬ c = '\\' := by
    intro c hc
    rcases List.mem_append.mp hc with h' | h'
    · exact hm1 c h'
    · rcases List.mem_append.mp h' with h'' | h''
      · exact h c h''
      · exact hm2 c h''
  have skipl1 : ∀ c ∈ l, ∀ t,
      tryLit "\\begin\x7benumerate\x7d".data mENUM_START (c :: t) = none :=
    fun c hc t => tryLit_skip "\\begin\x7benumerate\x7d".data mENUM_START '\\' rfl (h c hc) t
  have skipl2 : ∀ c ∈ l, ∀ t,
      tryLit "\\end\x7benumerate\x7d".data mENUM_END (c :: t) = none :=
    fun c hc t => tryLit_skip "\\end\x7benumerate\x7d".data mENUM_END '\\' rfl (h c hc) t
  have skipm2 : ∀ c ∈ mENUM_START, ∀ t,
      tryLit "\\end\x7benumerate\x7d".data mENUM_END (c :: t) = none :=
    fun c hc t => tryLit_skip "\\end\x7benumerate\x7d".data mENUM_END '\\' rfl (hm1 c hc) t
  have st1 : scanRep (tryLit "\\begin\x7benumerate\x7d".data mENUM_START)
      ("\\begin\x7benumerate\x7d".data ++ (l ++ "\\end\x7benumerate\x7d".data)) 0 =
      mENUM_START ++ (l ++ "\\end\x7benumerate\x7d".data) := by
    rw [scanRep_match_head _ (by decide) (tryLit_eq_some _ _ _),
      scanRep_pass _ skipl1,
      show scanRep (tryLit "\\begin\x7benumerate\x7d".data mENUM_START)
        "\\end\x7benumerate\x7d".data 0 = "\\end\x7benumerate\x7d".data by decide]
  have st2 : scanRep (tryLit "\\end\x7benumerate\x7d".data mENUM_END)
      (mENUM_START ++ (l ++ "\\end\x7benumerate\x7d".data)) 0 =
      mENUM_START ++ (l ++ mENUM_END) := by
    rw [scanRep_pass _ skipm2, scanRep_pass _ skipl2,
      show scanRep (tryLit "\\end\x7benumerate\x7d".data mENUM_END)
        "\\end\x7benumerate\x7d".data 0 = mENUM_END by decide]
  have st3 : scanRep (tryLit "\\begin\x7bitemize\x7d".data mLIST_START)
      (mENUM_START ++ (l ++ mENUM_END)) 0 = mENUM_START ++ (l ++ mENUM_END) := by
    have hsk : ∀ c ∈ mENUM_START ++ (l ++ mENUM_END), ∀ t,
        tryLit "\\begin\x7bitemize\x7d".data mLIST_START (c :: t) = none :=
      fun c hc t => tryLit_skip "\\begin\x7bitemize\x7d".data mLIST_START '\\' rfl (hall c hc) t
    exact scanRep_id hsk
  have st4 : scanRep (tryLit "\\end\x7bitemize\x7d".data mLIST_END)
      (mENUM_START ++ (l ++ mENUM_END)) 0 = mENUM_START ++ (l ++ mENUM_END) := by
    have hsk : ∀ c ∈ mENUM_START ++ (l ++ mENUM_END), ∀ t,
        tryLit "\\end\x7bitemize\x7d".data mLIST_END (c :: t) = none :=
      fun c hc t => tryLit_skip "\\end\x7bitemize\x7d".data mLIST_END '\\' rfl (hall c hc) t
    exact scanRep_id hsk
  simp only [convertEnvs]
  rw [st1, st2, st3, st4]

theorem convertEnvs_itemWrap {l : List Char} (h : ∀ c ∈ l, ¬ c = '\\') :
    convertEnvs
        ("\\begin\x7bitemize\x7d".data ++ (l ++ "\\end\x7bitemize\x7d".data)) =
      mLIST_START ++ (l ++ mLIST_END) := by
  have hm1 : ∀ c ∈ mLIST_START, ¬ c = '\\' := by decide
  have htail : ∀ c ∈ "begin\x7bitemize\x7d".data, ¬ c = '\\' := by decide
  have skipt1 : ∀ c ∈ "begin\x7bitemize\x7d".data, ∀ t,
      tryLit "\\begin\x7benumerate\x7d".data mENUM_START (c :: t) = none :=
    fun c hc t => tryLit_skip "\\begin\x7benumerate\x7d".data mENUM_START '\\' rfl (htail c hc) t
  have skipt2 : ∀ c ∈ "begin\x7bitemize\x7d".data, ∀ t,
      tryLit "\\end\x7benumerate\x7d".data mENUM_END (c :: t) = none :=
    fun c hc t => tryLit_skip "\\end\x7benumerate\x7d".data mENUM_END '\\' rfl (htail c hc) t
  have skipl1 : ∀ c ∈ l, ∀ t,
      tryLit "\\begin\x7benumerate\x7d".data mENUM_START (c :: t) = none :=
    fun c hc t => tryLit_skip "\\begin\x7benumerate\x7d".data mENUM_START '\\' rfl (h c hc) t
  have skipl2 : ∀ c ∈ l, ∀ t,
      tryLit "\\end\x7benumerate\x7d".data mENUM_END (c :: t) = none :=
    fun c hc t => tryLit_skip "\\end\x7benumerate\x7d".data mENUM_END '\\' rfl (h c hc) t
  have skipl3 : ∀ c ∈ l, ∀ t,
      tryLit "\\begin\x7bitemize\x7d".data mLIST_START (c :: t) = none :=
    fun c hc t => tryLit_skip "\\begin\x7bitemize\x7d".data mLIST_START '\\' rfl (h c hc) t
  have skipl4 : ∀ c ∈ l, ∀ t,
      tryLit "\\end\x7bitemize\x7d".data mLIST_END (c :: t) = none :=
    fun c hc t => tryLit_skip "\\end\x7bitemize\x7d".data mLIST_END '\\' rfl (h c hc) t
  have skipm4 : ∀ c ∈ mLIST_START, ∀ t,
      tryLit "\\end\x7bitemize\x7d".data mLIST_END (c :: t) = none :=
    fun c hc t => tryLit_skip "\\end\x7bitemize\x7d".data mLIST_END '\\' rfl (hm1 c hc) t
  have hpre1 : ∀ t, tryLit "\\begin\x7benumerate\x7d".data mENUM_START
      ('\\' :: ("begin\x7bitemize\x7d".data ++ t)) = none := fun t =>
    tryLit_eq_none _
      (@pfx_append_false "\\begin\x7benumerate\x7d".data
        "\\begin\x7bitemize\x7d".data t (by decide) (by decide))
  have hpre2 : ∀ t, tryLit "\\end\x7benumerate\x7d".data mENUM_END
      ('\\' :: ("begin\x7bitemize\x7d".data ++ t)) = none := fun t =>
    tryLit_eq_none _
      (@pfx_append_false "\\end\x7benumerate\x7d".data
        "\\begin\x7bitemize\x7d".data t (by decide) (by decide))
  have st1 : scanRep (tryLit "\\begin\x7benumerate\x7d".data mENUM_START)
      ("\\begin\x7bitemize\x7d".data ++ (l ++ "\\end\x7bitemize\x7d".data)) 0 =
      "\\begin\x7bitemize\x7d".data ++ (l ++ "\\end\x7bitemize\x7d".data) := by
    rw [scanRep_pre_skip _ hpre1 skipt1, scanRep_pass _ skipl1,
      show scanRep (tryLit "\\begin\x7benumerate\x7d".data mENUM_START)
        "\\end\x7bitemize\x7d".data 0 = "\\end\x7bitemize\x7d".data by decide]
  have st2 : scanRep (tryLit "\\end\x7benumerate\x7d".data mENUM_END)
      ("\\begin\x7bitemize\x7d".data ++ (l ++ "\\end\x7bitemize\x7d".data)) 0 =
      "\\begin\x7bitemize\x7d".data ++ (l ++ "\\end\x7bitemize\x7d".data) := by
    rw [scanRep_pre_skip _ hpre2 skipt2, scanRep_pass _ skipl2,
      show scanRep (tryLit "\\end\x7benumerate\x7d".data mENUM_END)
        "\\end\x7bitemize\x7d".data 0 = "\\end\x7bitemize\x7d".data by decide]
  have st3 : scanRep (tryLit "\\begin\x7bitemize\x7d".data mLIST_START)
      ("\\begin\x7bitemize\x7d".data ++ (l ++ "\\end\x7bitemize\x7d".data)) 0 =
      mLIST_START ++ (l ++ "\\end\x7bitemize\x7d".data) := by
    rw [scanRep_match_head _ (by decide) (tryLit_eq_some _ _ _),
      scanRep_pass _ skipl3,
      show scanRep (tryLit "\\begin\x7bitemize\x7d".data mLIST_START)
        "\\end\x7bitemize\x7d".data 0 = "\\end\x7bitemize\x7d".data by decide]
  have st4 : scanRep (tryLit "\\end\x7bitemize\x7d".data mLIST_END)
      (mLIST_START ++ (l ++ "\\end\x7bitemize\x7d".data)) 0 =
      mLIST_START ++ (l ++ mLIST_END) := by
    rw [scanRep_pass _ skipm4, scanRep_pass _ skipl4,
      show scanRep (tryLit "\\end\x7bitemize\x7d".data mLIST_END)
        "\\end\x7bitemize\x7d".data 0 = mLIST_END by decide]
  simp only [convertEnvs]
  rw [st1, st2, st3, st4]

theorem tryEnvSep_enumStart (t : List Char) :
    tryEnvSep (mENUM_START ++ t) = some (mENUM_START, mENUM_START.length) := by
  unfold tryEnvSep
  rw [tryLit_eq_some]
  rfl

theorem tryEnvSep_listStart (t : List Char) :
    tryEnvSep (mLIST_START ++ t) = some (mLIST_START, mLIST_START.length) := by
  unfold tryEnvSep
  rw [tryLit_eq_none mENUM_START
      (@pfx_append_false mENUM_START mLIST_START t (by decide) (by decide)),
    tryLit_eq_none mENUM_END
      (@pfx_append_false mENUM_END mLIST_START t (by decide) (by decide)),
    tryLit_eq_some]
  rfl

theorem splitKeep_env_wrap {l M1 M2 : List Char} (hus : '_' ∉ l)
    (hM1 : ∀ t, tryEnvSep (M1 ++ t) = some (M1, M1.length)) (hM1ne : M1 ≠ [])
    (hM2 : splitKeep tryEnvSep M2 0 = [[], M2, []]) :
    splitKeep tryEnvSep (M1 ++ (l ++ M2)) 0 = [[], M1, l, M2, []] := by
  rw [splitKeep_match_head _ hM1ne (hM1 _)]
  have hskip : ∀ c ∈ l, ∀ t, tryEnvSep (c :: t) = none :=
    fun c hc t => tryEnvSep_skip (fun he => hus (he ▸ hc)) t
  rw [splitKeep_pass hskip hM2]
  simp

theorem renderParts_wrap (ok : List Char → Bool) {l : List Char}
    (hus : '_' ∉ l) {M1 M2 : List Char}
    (hM1 : M1 = mENUM_START ∨ M1 = mLIST_START)
    (hM2 : M2 = mENUM_END ∨ M2 = mLIST_END) :
    renderParts ok [[], M1, l, M2, []] false [] =
      if (itemsLoop ok [l] [] true).isEmpty then []
      else [Node.list (itemsLoop ok [l] [] true)] := by
  have hl1 : ¬ (l = mENUM_START ∨ l = mLIST_START) := by
    rintro (he | he)
    · exact hus (he ▸ (by decide : '_' ∈ mENUM_START))
    · exact hus (he ▸ (by decide : '_' ∈ mLIST_START))
  have hl2 : ¬ (l = mENUM_END ∨ l = mLIST_END) := by
    rintro (he | he)
    · exact hus (he ▸ (by decide : '_' ∈ mENUM_END))
    · exact hus (he ▸ (by decide : '_' ∈ mLIST_END))
  have hM1a : ¬ (M2 = mENUM_START ∨ M2 = mLIST_START) := by
    rcases hM2 with rfl | rfl <;> decide
  have hitems : splitKeep tryItemSep l 0 = [l] :=
    splitKeep_all_none fun c hc t =>
      tryItemSep_skip (fun he => hus (he ▸ hc)) t
  have hnil1 : ¬ (([] : List Char) = mENUM_START ∨ ([] : List Char) = mLIST_START) := by
    decide
  have hnil2 : ¬ (([] : List Char) = mENUM_END ∨ ([] : List Char) = mLIST_END) := by
    decide
  have hfb : ¬ (false : Bool) = true := by decide
  have step1 : renderParts ok [[], M1, l, M2, []] false [] =
      renderParts ok [M1, l, M2, []] false [] := by
    rw [renderParts, if_neg hnil1, if_neg hnil2, if_neg hfb]
    dsimp only
    rw [if_pos (show trimWS [] = [] from rfl)]
    exact List.nil_append _
  have step2 : renderParts ok [M1, l, M2, []] false [] =
      renderParts ok [l, M2, []] true [] := by
    rw [renderParts, if_pos hM1]
  have step3 : renderParts ok [l, M2, []] true [] =
      renderParts ok [M2, []] true (itemsLoop ok [l] [] true) := by
    rw [renderParts, if_neg hl1, if_neg hl2,
      if_pos (show (true : Bool) = true from rfl), hitems, List.nil_append]
  have step4 : renderParts ok [M2, []] true (itemsLoop ok [l] [] true) =
      (if (itemsLoop ok [l] [] true).isEmpty then []
       else [Node.list (itemsLoop ok [l] [] true)]) ++
        renderParts ok [[]] false (itemsLoop ok [l] [] true) := by
    rw [renderParts, if_neg hM1a, if_pos hM2]
  have step5 : renderParts ok [[]] false (itemsLoop ok [l] [] true) = [] := by
    rw [renderParts, if_neg hnil1, if_neg hnil2, if_neg hfb]
    dsimp only
    rw [if_pos (show trimWS [] = [] from rfl), renderParts_nil]
    rfl
  rw [step1, step2, step3, step4, step5, List.append_nil]

/-! ### The claims -/

/-- C1, corrected.  As stated the claim is false: the `latex-error`
fallback does not reproduce the original delimited source text — it
rebuilds `$e$` / `$$e$$` from the *trimmed* expression, with dollar
delimiters even for a `\(…\)` / `\[…\]` span.  This counterexample
renders `\(x\)` with a backend that always throws: the fallback node
carries `$x$`, not the original source `\(x\)`. -/
theorem c1_counterexample :
    renderInlineContent (fun _ => false) "\\(x\\)".data =
      [.errorFallback "$x$".data false] ∧
    ¬ "$x$".data = "\\(x\\)".data := by
  constructor
  · decide
  · decide

/-- C1, amended: a math span whose raw capture is empty (`$$$$`, `\[\]`,
`\(\)`) is dropped from the output entirely — the truthiness gate pushes
no node for it, fallback or typeset, whether or not the backend throws —
and for every body and every backend the rendered output equals the
output under an always-succeeding backend with each typeset node whose
expression the backend rejects replaced, in place, by the `latex-error`
fallback `$e$` / `$$e$$` built from the trimmed expression; all sibling
text runs and spans are unchanged, and the pipeline is a total function
(no exception reaches the caller). -/
theorem c1_theorem :
    (∀ (ok : List Char → Bool) (l : List Char),
      renderInlineContent ok l =
        (renderInlineContent (fun _ => true) l).map (degrade ok)) ∧
    renderInlineContent (fun _ => false) "\\(\\)".data = [] ∧
    renderInlineContent (fun _ => true) "$$$$".data = [] := by
  refine ⟨fun ok l => ?_, by decide, by decide⟩
  unfold renderInlineContent
  exact degrade_flatMap ok _

/-- C2, corrected.  As stated the claim is false: block math is *not*
extracted with priority over inline math; the scanner is one left-to-right
pass and in `$a $$b$$ c$` the inline alternative matches `$a $` first, so
three inline spans `a `, `b`, ` c` come out and no block span at all. -/
theorem c2_counterexample :
    renderInlineContent (fun _ => true) "$a $$b$$ c$".data =
      [.typeset "a".data false, .typeset "b".data false,
       .typeset "c".data false] ∧
    (mathScan "$a $$b$$ c$".data 0).filter isBlockPiece = [] := by
  constructor
  · decide
  · decide

/-- C2, amended: extraction is a single left-to-right scan trying, at
each position, `$$…$$` before `$…$` before `\[…\]` before `\(…\)`.
Matched spans are non-overlapping, in order, and partition the body: the
pieces concatenate back to the input (so no character belongs to two
spans and no span crosses another).  On `$a $$b$$ c$` the scan yields
three inline spans with raw captures `a `, `b`, ` c` and no block span. -/
theorem c2_theorem :
    (∀ l : List Char, ((mathScan l 0).map pieceRaw).flatten = l) ∧
    mathScan "$a $$b$$ c$".data 0 =
      [Sum.inr (.dollarInline, "a ".data), Sum.inr (.dollarInline, "b".data),
       Sum.inr (.dollarInline, " c".data)] :=
  ⟨fun l => mathScan_flatten_aux l.length l le_rfl, by decide⟩

/-- C3, code bug.  The spec says an unterminated list is tolerated by
treating the remainder as the list's content, but the source pushes the
accumulated `listItems` only when an end marker arrives: with no end
marker the items are parsed and then silently discarded, so
`\begin\x7bitemize\x7d\item Foo` renders to nothing at all. -/
theorem c3_theorem :
    render (fun _ => true) "\\begin\x7bitemize\x7d\\item Foo" = [] := by
  decide

/-- C4, corrected.  As stated the claim is false: the third run is not
bold-only.  The non-nesting `[^\x7d]*` capture makes `\textbf` close at the
*first* `\x7d` (after `both`), producing `<b>bold <i>both</b> end</i>`, so
the toggle pass leaves ` end` italic-only. -/
theorem c4_counterexample :
    ¬ render (fun _ => true) "\\textbf\x7bbold \\textit\x7bboth\x7d end\x7d" =
      [Node.inline (.text "bold ".data true false false),
       Node.inline (.text "both".data true true false),
       Node.inline (.text " end".data true false false)] := by
  decide

/-- C4, amended: `\textbf\x7bbold \textit\x7bboth\x7d end\x7d` renders as exactly
three runs, in order: `bold ` bold-only, `both` bold+italic, and ` end`
*italic-only* (the bold flag was closed by the mis-nested `</b>`). -/
theorem c4_theorem :
    render (fun _ => true) "\\textbf\x7bbold \\textit\x7bboth\x7d end\x7d" =
      [Node.inline (.text "bold ".data true false false),
       Node.inline (.text "both".data true true false),
       Node.inline (.text " end".data false true false)] := by
  decide

/-- C5, confirmed: `\begin\x7bitemize\x7d\item[(a)] Foo\item Bar\end\x7bitemize\x7d`
renders as one list block with exactly two items in order: the first
labeled `(a)` with body `Foo`, the second labeled with the default
bullet glyph with body `Bar`. -/
theorem c5_theorem :
    render (fun _ => true)
        "\\begin\x7bitemize\x7d\\item[(a)] Foo\\item Bar\\end\x7bitemize\x7d" =
      [Node.list
        [⟨"(a)".data, [.text "Foo".data false false false]⟩,
         ⟨bulletLabel, [.text "Bar".data false false false]⟩]] := by
  decide

/-- C6, corrected.  As stated the claim is false: the renderer trims each
text part, so a command-free, math-free input with leading or trailing
whitespace does not round-trip character for character — ` hi ` renders
as a single run `hi`, not ` hi ` (embedded newlines moreover split the
output into several nodes). -/
theorem c6_counterexample :
    render (fun _ => true) " hi " =
      [Node.inline (.text "hi".data false false false)] ∧
    ¬ "hi".data = " hi ".data := by
  constructor
  · decide
  · decide

/-- C6, amended: for every string without backslash, dollar, underscore,
newline and `<` characters whose trim is nonempty, the output is a single
unstyled formatted-text node whose text is the *trimmed* input. -/
theorem c6_theorem (ok : List Char → Bool) (s : String)
    (h1 : '\\' ∉ s.data) (h2 : '$' ∉ s.data) (h3 : '_' ∉ s.data)
    (h4 : '\n' ∉ s.data) (h5 : '<' ∉ s.data) (h6 : ¬ trimWS s.data = []) :
    render ok s = [Node.inline (.text (trimWS s.data) false false false)] := by
  have hne : ¬ s.data = [] := fun he => h6 (by rw [he]; rfl)
  unfold render
  rw [if_neg hne, convertLatexToHtml_id (fun c hc he => h1 (he ▸ hc)),
    splitKeep_all_none (fun c hc t => tryEnvSep_skip (fun he => h3 (he ▸ hc)) t),
    renderParts_single ok h3, if_neg h6,
    renderInlineContent_plain ok (fun hc => h1 (mem_trimWS hc))
      (fun hc => h2 (mem_trimWS hc)) (fun hc => h3 (mem_trimWS hc))
      (fun hc => h4 (mem_trimWS hc)) (fun hc => h5 (mem_trimWS hc)) h6]
  rfl

theorem c6_witness :
    ('\\' ∉ " hi x".data ∧ '$' ∉ " hi x".data ∧ '_' ∉ " hi x".data ∧
     '\n' ∉ " hi x".data ∧ '<' ∉ " hi x".data ∧ ¬ trimWS " hi x".data = []) ∧
    render (fun _ => true) " hi x" =
      [Node.inline (.text (trimWS " hi x".data) false false false)] :=
  ⟨by decide, c6_theorem (fun _ => true) " hi x" (by decide) (by decide)
    (by decide) (by decide) (by decide) (by decide)⟩

/-- C7, corrected.  As stated the claim is false: the item guard
`trimmedContent && (label || itemIdx === 0)` requires nonempty trimmed
content unconditionally, so a marker carrying a non-empty label followed
by an empty body produces *no* item.  Here `\item[(a)]` is followed only
by whitespace: the rendered list has a single bullet item `Bar` and no
item labeled `(a)` anywhere. -/
theorem c7_counterexample :
    render (fun _ => true)
        "\\begin\x7bitemize\x7d\\item[(a)] \\item Bar\\end\x7bitemize\x7d" =
      [Node.list [⟨bulletLabel, [.text "Bar".data false false false]⟩]] ∧
    (render (fun _ => true)
        "\\begin\x7bitemize\x7d\\item[(a)] \\item Bar\\end\x7bitemize\x7d").all
      (fun n =>
        match n with
        | Node.list items =>
          items.all fun it => decide (¬ it.label = "(a)".data)
        | Node.inline _ => true) = true := by
  constructor
  · decide
  · decide

/-- C7, amended: within a list, every chunk between item boundaries that
is empty or whitespace-only after trimming is dropped *unconditionally*
— even when the immediately preceding marker carried a non-empty label
(the exception claimed by the spec does not exist in the code): a part
list consisting only of item markers and whitespace-only chunks yields
no items at all. -/
theorem c7_theorem (ok : List Char → Bool) :
    ∀ (parts : List (List Char)) (prev : List Char) (first : Bool),
      (∀ p ∈ parts, trimWS p = [] ∨ pfx mITEM_LABEL_PRE p = true ∨ p = mITEM) →
      itemsLoop ok parts prev first = [] := by
  intro parts
  induction parts with
  | nil => intro prev first _; rfl
  | cons p ps ih =>
    intro prev first h
    rw [itemsLoop]
    by_cases hp1 : pfx mITEM_LABEL_PRE p = true
    · rw [if_pos hp1]
      exact ih p false fun q hq => h q (List.mem_cons_of_mem p hq)
    · rw [if_neg hp1]
      by_cases hp2 : p = mITEM
      · rw [if_pos hp2]
        exact ih p false fun q hq => h q (List.mem_cons_of_mem p hq)
      · rw [if_neg hp2]
        have ht : trimWS p = [] := by
          rcases h p (List.mem_cons_self p ps) with h' | h' | h'
          · exact h'
          · exact absurd h' hp1
          · exact absurd h' hp2
        dsimp only
        rw [ht, if_neg (by simp)]
        simpa using ih p false fun q hq => h q (List.mem_cons_of_mem p hq)

theorem c7_witness :
    (∀ p ∈ [([] : List Char), mITEM_LABEL_PRE ++ "(a)".data ++ mUUU, [' ']],
        trimWS p = [] ∨ pfx mITEM_LABEL_PRE p = true ∨ p = mITEM) ∧
    itemsLoop (fun _ => true)
      [[], mITEM_LABEL_PRE ++ "(a)".data ++ mUUU, [' ']] [] true = [] :=
  ⟨by decide, c7_theorem (fun _ => true)
    [[], mITEM_LABEL_PRE ++ "(a)".data ++ mUUU, [' ']] [] true (by decide)⟩

/-- C8, confirmed: `$$a$$$b$` parses as exactly one block-math node with
expression `a` followed by exactly one inline-math node with expression
`b`; the scan consumes `$$a$$` first and then `$b$`, with no overlapping
or nested interpretation of the dollars. -/
theorem c8_theorem :
    render (fun _ => true) "$$a$$$b$" =
      [Node.inline (.typeset "a".data true),
       Node.inline (.typeset "b".data false)] := by
  decide

/-- C9, corrected.  As stated (for *every* content string) the claim is
false: sentinel-colliding content renders differently in the two
environments.  With body `___ENUM_END`, normalization turns the
enumerate wrapper into `___ENUM_START______ENUM_END___ENUM_END___`; the
splitter consumes an end marker straddling the body and the wrapper's
own end marker, leaving residue `ENUM_END___` in one variant and
`LIST_END___` in the other, which render as different literal text. -/
theorem c9_counterexample :
    render (fun _ => true)
        "\\begin\x7benumerate\x7d___ENUM_END\\end\x7benumerate\x7d" =
      [Node.inline (.text "ENUM_END___".data false false false)] ∧
    render (fun _ => true)
        "\\begin\x7bitemize\x7d___ENUM_END\\end\x7bitemize\x7d" =
      [Node.inline (.text "LIST_END___".data false false false)] ∧
    ¬ render (fun _ => true)
        "\\begin\x7benumerate\x7d___ENUM_END\\end\x7benumerate\x7d" =
      render (fun _ => true)
        "\\begin\x7bitemize\x7d___ENUM_END\\end\x7bitemize\x7d" := by
  exact ⟨by decide, by decide, by decide⟩

/-- C9, amended: for every content string `b` containing no backslash
and no underscore (so `b` cannot collide with the internal sentinel
markers nor contain commands), rendering `b` wrapped in the enumerate
environment produces exactly the same output as rendering it wrapped in
the itemize environment: the ordered/unordered distinction is not
preserved past normalization. -/
theorem c9_theorem (ok : List Char → Bool) (b : String)
    (hbs : '\\' ∉ b.data) (hus : '_' ∉ b.data) :
    render ok ("\\begin\x7benumerate\x7d" ++ b ++ "\\end\x7benumerate\x7d") =
      render ok ("\\begin\x7bitemize\x7d" ++ b ++ "\\end\x7bitemize\x7d") := by
  have hb : ∀ c ∈ b.data, ¬ c = '\\' := fun c hc he => hbs (he ▸ hc)
  have hdE : ("\\begin\x7benumerate\x7d" ++ b ++ "\\end\x7benumerate\x7d").data =
      "\\begin\x7benumerate\x7d".data ++ (b.data ++ "\\end\x7benumerate\x7d".data) := by
    rw [String.data_append, String.data_append, List.append_assoc]
  have hdI : ("\\begin\x7bitemize\x7d" ++ b ++ "\\end\x7bitemize\x7d").data =
      "\\begin\x7bitemize\x7d".data ++ (b.data ++ "\\end\x7bitemize\x7d".data) := by
    rw [String.data_append, String.data_append, List.append_assoc]
  have hneE : ¬ ("\\begin\x7benumerate\x7d" ++ b ++ "\\end\x7benumerate\x7d").data = [] := by
    rw [hdE]
    simp
  have hneI : ¬ ("\\begin\x7bitemize\x7d" ++ b ++ "\\end\x7bitemize\x7d").data = [] := by
    rw [hdI]
    simp
  have hmE1 : ∀ c ∈ mENUM_START, ¬ c = '\\' := by decide
  have hmE2 : ∀ c ∈ mENUM_END, ¬ c = '\\' := by decide
  have hmL1 : ∀ c ∈ mLIST_START, ¬ c = '\\' := by decide
  have hmL2 : ∀ c ∈ mLIST_END, ¬ c = '\\' := by decide
  have hallE : ∀ c ∈ mENUM_START ++ (b.data ++ mENUM_END), ¬ c = '\\' := by
    intro c hc
    rcases List.mem_append.mp hc with h' | h'
    · exact hmE1 c h'
    · rcases List.mem_append.mp h' with h'' | h''
      · exact hb c h''
      · exact hmE2 c h''
  have hallI : ∀ c ∈ mLIST_START ++ (b.data ++ mLIST_END), ¬ c = '\\' := by
    intro c hc
    rcases List.mem_append.mp hc with h' | h'
    · exact hmL1 c h'
    · rcases List.mem_append.mp h' with h'' | h''
      · exact hb c h''
      · exact hmL2 c h''
  unfold render
  rw [if_neg hneE, if_neg hneI, hdE, hdI, convertLatexToHtml, convertLatexToHtml,
    convertEnvs_enumWrap hb, convertEnvs_itemWrap hb,
    convertRest_id hallE, convertRest_id hallI,
    splitKeep_env_wrap hus tryEnvSep_enumStart (by decide) (by decide),
    splitKeep_env_wrap hus tryEnvSep_listStart (by decide) (by decide),
    renderParts_wrap ok hus (Or.inl rfl) (Or.inl rfl),
    renderParts_wrap ok hus (Or.inr rfl) (Or.inr rfl)]

theorem c9_witness :
    ('\\' ∉ "x $y$".data ∧ '_' ∉ "x $y$".data) ∧
    render (fun _ => true)
        ("\\begin\x7benumerate\x7d" ++ "x $y$" ++ "\\end\x7benumerate\x7d") =
      render (fun _ => true)
        ("\\begin\x7bitemize\x7d" ++ "x $y$" ++ "\\end\x7bitemize\x7d") :=
  ⟨by decide, c9_theorem (fun _ => true) "x $y$" (by decide) (by decide)⟩

theorem c10_aux (ok : List Char → Bool) {l : List Char}
    (hbs : '\\' ∉ l) (hus : '_' ∉ l) (ht : ¬ trimWS l = []) :
    renderParts ok
        (splitKeep tryEnvSep
          (convertLatexToHtml
            ("\\begin\x7bitemize\x7d".data ++
              (l ++ "\\item x\\end\x7bitemize\x7d".data))) 0) false [] =
      [Node.list
        [⟨[], renderInlineContent ok (trimWS l)⟩,
         ⟨bulletLabel, [.text "x".data false false false]⟩]] := by
  have hlne : l ≠ [] := fun he => ht (by rw [he]; rfl)
  obtain ⟨c0, l', rfl⟩ := List.exists_cons_of_ne_nil hlne
  have hb : ∀ c ∈ c0 :: l', ¬ c = '\\' := fun c hc he => hbs (he ▸ hc)
  have hc0 : ¬ c0 = '_' := fun he => hus (he ▸ List.mem_cons_self c0 l')
  -- normalization: the environment stages
  have htail : ∀ c ∈ "begin\x7bitemize\x7d".data, ¬ c = '\\' := by decide
  have hmL1 : ∀ c ∈ mLIST_START, ¬ c = '\\' := by decide
  have skipt1 : ∀ c ∈ "begin\x7bitemize\x7d".data, ∀ t,
      tryLit "\\begin\x7benumerate\x7d".data mENUM_START (c :: t) = none :=
    fun c hc t => tryLit_skip "\\begin\x7benumerate\x7d".data mENUM_START '\\' rfl (htail c hc) t
  have skipt2 : ∀ c ∈ "begin\x7bitemize\x7d".data, ∀ t,
      tryLit "\\end\x7benumerate\x7d".data mENUM_END (c :: t) = none :=
    fun c hc t => tryLit_skip "\\end\x7benumerate\x7d".data mENUM_END '\\' rfl (htail c hc) t
  have skipA1 : ∀ c ∈ c0 :: l', ∀ t,
      tryLit "\\begin\x7benumerate\x7d".data mENUM_START (c :: t) = none :=
    fun c hc t => tryLit_skip "\\begin\x7benumerate\x7d".data mENUM_START '\\' rfl (hb c hc) t
  have skipA2 : ∀ c ∈ c0 :: l', ∀ t,
      tryLit "\\end\x7benumerate\x7d".data mENUM_END (c :: t) = none :=
    fun c hc t => tryLit_skip "\\end\x7benumerate\x7d".data mENUM_END '\\' rfl (hb c hc) t
  have skipA3 : ∀ c ∈ c0 :: l', ∀ t,
      tryLit "\\begin\x7bitemize\x7d".data mLIST_START (c :: t) = none :=
    fun c hc t => tryLit_skip "\\begin\x7bitemize\x7d".data mLIST_START '\\' rfl (hb c hc) t
  have skipA4 : ∀ c ∈ c0 :: l', ∀ t,
      tryLit "\\end\x7bitemize\x7d".data mLIST_END (c :: t) = none :=
    fun c hc t => tryLit_skip "\\end\x7bitemize\x7d".data mLIST_END '\\' rfl (hb c hc) t
  have skipm4 : ∀ c ∈ mLIST_START, ∀ t,
      tryLit "\\end\x7bitemize\x7d".data mLIST_END (c :: t) = none :=
    fun c hc t => tryLit_skip "\\end\x7bitemize\x7d".data mLIST_END '\\' rfl (hmL1 c hc) t
  have hpre1 : ∀ t, tryLit "\\begin\x7benumerate\x7d".data mENUM_START
      ('\\' :: ("begin\x7bitemize\x7d".data ++ t)) = none := fun t =>
    tryLit_eq_none _
      (@pfx_append_false "\\begin\x7benumerate\x7d".data
        "\\begin\x7bitemize\x7d".data t (by decide) (by decide))
  have hpre2 : ∀ t, tryLit "\\end\x7benumerate\x7d".data mENUM_END
      ('\\' :: ("begin\x7bitemize\x7d".data ++ t)) = none := fun t =>
    tryLit_eq_none _
      (@pfx_append_false "\\end\x7benumerate\x7d".data
        "\\begin\x7bitemize\x7d".data t (by decide) (by decide))
  have stE1 : scanRep (tryLit "\\begin\x7benumerate\x7d".data mENUM_START)
      ("\\begin\x7bitemize\x7d".data ++
        ((c0 :: l') ++ "\\item x\\end\x7bitemize\x7d".data)) 0 =
      "\\begin\x7bitemize\x7d".data ++
        ((c0 :: l') ++ "\\item x\\end\x7bitemize\x7d".data) := by
    rw [scanRep_pre_skip _ hpre1 skipt1, scanRep_pass _ skipA1,
      show scanRep (tryLit "\\begin\x7benumerate\x7d".data mENUM_START)
        "\\item x\\end\x7bitemize\x7d".data 0 =
        "\\item x\\end\x7bitemize\x7d".data by decide]
  have stE2 : scanRep (tryLit "\\end\x7benumerate\x7d".data mENUM_END)
      ("\\begin\x7bitemize\x7d".data ++
        ((c0 :: l') ++ "\\item x\\end\x7bitemize\x7d".data)) 0 =
      "\\begin\x7bitemize\x7d".data ++
        ((c0 :: l') ++ "\\item x\\end\x7bitemize\x7d".data) := by
    rw [scanRep_pre_skip _ hpre2 skipt2, scanRep_pass _ skipA2,
      show scanRep (tryLit "\\end\x7benumerate\x7d".data mENUM_END)
        "\\item x\\end\x7bitemize\x7d".data 0 =
        "\\item x\\end\x7bitemize\x7d".data by decide]
  have stE3 : scanRep (tryLit "\\begin\x7bitemize\x7d".data mLIST_START)
      ("\\begin\x7bitemize\x7d".data ++
        ((c0 :: l') ++ "\\item x\\end\x7bitemize\x7d".data)) 0 =
      mLIST_START ++ ((c0 :: l') ++ "\\item x\\end\x7bitemize\x7d".data) := by
    rw [scanRep_match_head _ (by decide) (tryLit_eq_some _ _ _),
      scanRep_pass _ skipA3,
      show scanRep (tryLit "\\begin\x7bitemize\x7d".data mLIST_START)
        "\\item x\\end\x7bitemize\x7d".data 0 =
        "\\item x\\end\x7bitemize\x7d".data by decide]
  have stE4 : scanRep (tryLit "\\end\x7bitemize\x7d".data mLIST_END)
      (mLIST_START ++ ((c0 :: l') ++ "\\item x\\end\x7bitemize\x7d".data)) 0 =
      mLIST_START ++ ((c0 :: l') ++ "\\item x___LIST_END___".data) := by
    rw [scanRep_pass _ skipm4, scanRep_pass _ skipA4,
      show scanRep (tryLit "\\end\x7bitemize\x7d".data mLIST_END)
        "\\item x\\end\x7bitemize\x7d".data 0 =
        "\\item x___LIST_END___".data by decide]
  have henv : convertEnvs
      ("\\begin\x7bitemize\x7d".data ++
        ((c0 :: l') ++ "\\item x\\end\x7bitemize\x7d".data)) =
      mLIST_START ++ ((c0 :: l') ++ "\\item x___LIST_END___".data) := by
    simp only [convertEnvs]
    rw [stE1, stE2, stE3, stE4]
  -- normalization: the item stages
  have skipm5 : ∀ c ∈ mLIST_START, ∀ t,
      tryCap "\\item[".data ']'
        (fun cap => mITEM_LABEL_PRE ++ cap ++ mUUU) (c :: t) = none :=
    fun c hc t => tryCap_skip "\\item[".data ']' _ '\\' rfl (hmL1 c hc) t
  have skipA5 : ∀ c ∈ c0 :: l', ∀ t,
      tryCap "\\item[".data ']'
        (fun cap => mITEM_LABEL_PRE ++ cap ++ mUUU) (c :: t) = none :=
    fun c hc t => tryCap_skip "\\item[".data ']' _ '\\' rfl (hb c hc) t
  have skipm6 : ∀ c ∈ mLIST_START, ∀ t,
      tryLit "\\item".data mITEM (c :: t) = none :=
    fun c hc t => tryLit_skip "\\item".data mITEM '\\' rfl (hmL1 c hc) t
  have skipA6 : ∀ c ∈ c0 :: l', ∀ t,
      tryLit "\\item".data mITEM (c :: t) = none :=
    fun c hc t => tryLit_skip "\\item".data mITEM '\\' rfl (hb c hc) t
  have stE5 : scanRep (tryCap "\\item[".data ']'
      (fun cap => mITEM_LABEL_PRE ++ cap ++ mUUU))
      (mLIST_START ++ ((c0 :: l') ++ "\\item x___LIST_END___".data)) 0 =
      mLIST_START ++ ((c0 :: l') ++ "\\item x___LIST_END___".data) := by
    rw [scanRep_pass _ skipm5, scanRep_pass _ skipA5,
      show scanRep (tryCap "\\item[".data ']'
        (fun cap => mITEM_LABEL_PRE ++ cap ++ mUUU))
        "\\item x___LIST_END___".data 0 =
        "\\item x___LIST_END___".data by decide]
  have stE6 : scanRep (tryLit "\\item".data mITEM)
      (mLIST_START ++ ((c0 :: l') ++ "\\item x___LIST_END___".data)) 0 =
      mLIST_START ++ ((c0 :: l') ++ "___ITEM___ x___LIST_END___".data) := by
    rw [scanRep_pass _ skipm6, scanRep_pass _ skipA6,
      show scanRep (tryLit "\\item".data mITEM)
        "\\item x___LIST_END___".data 0 =
        "___ITEM___ x___LIST_END___".data by decide]
  have hitems' : convertItems
      (mLIST_START ++ ((c0 :: l') ++ "\\item x___LIST_END___".data)) =
      mLIST_START ++ ((c0 :: l') ++ "___ITEM___ x___LIST_END___".data) := by
    simp only [convertItems]
    rw [stE5, stE6]
  -- normalization: the formatting stages are identity (no backslash left)
  have hallW : ∀ c ∈ mLIST_START ++
      ((c0 :: l') ++ "___ITEM___ x___LIST_END___".data), ¬ c = '\\' := by
    intro c hc
    rcases List.mem_append.mp hc with h' | h'
    · exact hmL1 c h'
    · rcases List.mem_append.mp h' with h'' | h''
      · exact hb c h''
      · exact (by decide : ∀ c ∈ "___ITEM___ x___LIST_END___".data, ¬ c = '\\') c h''
  have hnorm : convertLatexToHtml
      ("\\begin\x7bitemize\x7d".data ++
        ((c0 :: l') ++ "\\item x\\end\x7bitemize\x7d".data)) =
      mLIST_START ++ ((c0 :: l') ++ "___ITEM___ x___LIST_END___".data) := by
    rw [convertLatexToHtml, convertRest, henv, hitems', convertFmt_id hallW]
  -- the environment split
  have hskipEnv : ∀ c ∈ c0 :: l', ∀ t, tryEnvSep (c :: t) = none :=
    fun c hc t => tryEnvSep_skip (fun he => hus (he ▸ hc)) t
  have hsplit : splitKeep tryEnvSep
      (mLIST_START ++ ((c0 :: l') ++ "___ITEM___ x___LIST_END___".data)) 0 =
      [[], mLIST_START, (c0 :: l') ++ "___ITEM___ x".data, mLIST_END, []] := by
    rw [splitKeep_match_head _ (by decide) (tryEnvSep_listStart _),
      splitKeep_pass hskipEnv
        (show splitKeep tryEnvSep "___ITEM___ x___LIST_END___".data 0 =
          "___ITEM___ x".data :: [mLIST_END, []] by decide)]
  -- the item split of the middle part
  have hskipItem : ∀ c ∈ c0 :: l', ∀ t, tryItemSep (c :: t) = none :=
    fun c hc t => tryItemSep_skip (fun he => hus (he ▸ hc)) t
  have hmid : splitKeep tryItemSep ((c0 :: l') ++ "___ITEM___ x".data) 0 =
      [c0 :: l', mITEM, " x".data] := by
    rw [splitKeep_pass hskipItem
      (show splitKeep tryItemSep "___ITEM___ x".data 0 =
        [] :: [mITEM, " x".data] by decide)]
    simp
  -- the items of the list
  have hq1 : ¬ pfx mITEM_LABEL_PRE (c0 :: l') = true := by
    have h' : pfx mITEM_LABEL_PRE (c0 :: l') = false := pfx_false_of_head' rfl hus
    rw [h']
    simp
  have hq2 : ¬ c0 :: l' = mITEM := ne_of_head' rfl rfl hc0
  have hx : renderInlineContent ok "x".data =
      [.text "x".data false false false] := rfl
  have i3 : itemsLoop ok [" x".data] mITEM false =
      [⟨bulletLabel, [.text "x".data false false false]⟩] := by
    rw [itemsLoop, if_neg (by decide), if_neg (by decide)]
    dsimp only
    rw [show labelOfPrev mITEM = bulletLabel by decide,
      show trimWS " x".data = "x".data by decide,
      if_pos ⟨by decide, Or.inl (by decide)⟩, hx]
    rfl
  have i2 : itemsLoop ok [mITEM, " x".data] (c0 :: l') false =
      itemsLoop ok [" x".data] mITEM false := by
    rw [itemsLoop, if_neg (by decide), if_pos rfl]
  have i1 : itemsLoop ok [c0 :: l', mITEM, " x".data] [] true =
      ⟨[], renderInlineContent ok (trimWS (c0 :: l'))⟩ ::
        itemsLoop ok [mITEM, " x".data] (c0 :: l') false := by
    rw [itemsLoop, if_neg hq1, if_neg hq2]
    dsimp only
    rw [show labelOfPrev [] = [] from rfl,
      if_pos ⟨ht, Or.inr rfl⟩]
    rfl
  have hloop : itemsLoop ok [c0 :: l', mITEM, " x".data] [] true =
      [⟨[], renderInlineContent ok (trimWS (c0 :: l'))⟩,
       ⟨bulletLabel, [.text "x".data false false false]⟩] := by
    rw [i1, i2, i3]
  -- the render of the five parts
  have hg1 : ¬ ((c0 :: l') ++ "___ITEM___ x".data = mENUM_START ∨
      (c0 :: l') ++ "___ITEM___ x".data = mLIST_START) := by
    rintro (he | he)
    · exact absurd he (ne_of_head' rfl rfl hc0)
    · exact absurd he (ne_of_head' rfl rfl hc0)
  have hg2 : ¬ ((c0 :: l') ++ "___ITEM___ x".data = mENUM_END ∨
      (c0 :: l') ++ "___ITEM___ x".data = mLIST_END) := by
    rintro (he | he)
    · exact absurd he (ne_of_head' rfl rfl hc0)
    · exact absurd he (ne_of_head' rfl rfl hc0)
  have hnil1 : ¬ (([] : List Char) = mENUM_START ∨
      ([] : List Char) = mLIST_START) := by decide
  have hnil2 : ¬ (([] : List Char) = mENUM_END ∨
      ([] : List Char) = mLIST_END) := by decide
  have hfb : ¬ (false : Bool) = true := by decide
  rw [hnorm, hsplit]
  rw [renderParts, if_neg hnil1, if_neg hnil2, if_neg hfb]
  dsimp only
  rw [if_pos (show trimWS [] = [] from rfl), List.nil_append]
  rw [renderParts, if_pos (Or.inr rfl)]
  rw [renderParts, if_neg hg1, if_neg hg2,
    if_pos (show (true : Bool) = true from rfl), hmid, List.nil_append, hloop]
  rw [renderParts, if_neg (by decide), if_pos (Or.inr rfl)]
  rw [renderParts, if_neg hnil1, if_neg hnil2, if_neg hfb]
  dsimp only
  rw [if_pos (show trimWS [] = [] from rfl), renderParts_nil]
  simp

/-- C10, confirmed (for leading text free of backslash and underscore):
non-whitespace text between the list start and the first item marker is
kept inside the list as its first item, with empty label — no bullet
glyph, no label node — followed by the marked items. -/
theorem c10_theorem (ok : List Char → Bool) (lead : String)
    (hbs : '\\' ∉ lead.data) (hus : '_' ∉ lead.data)
    (ht : ¬ trimWS lead.data = []) :
    render ok ("\\begin\x7bitemize\x7d" ++ lead ++ "\\item x\\end\x7bitemize\x7d") =
      [Node.list
        [⟨[], renderInlineContent ok (trimWS lead.data)⟩,
         ⟨bulletLabel, [.text "x".data false false false]⟩]] := by
  have hd : ("\\begin\x7bitemize\x7d" ++ lead ++ "\\item x\\end\x7bitemize\x7d").data =
      "\\begin\x7bitemize\x7d".data ++
        (lead.data ++ "\\item x\\end\x7bitemize\x7d".data) := by
    rw [String.data_append, String.data_append, List.append_assoc]
  have hne : ¬ ("\\begin\x7bitemize\x7d" ++ lead ++ "\\item x\\end\x7bitemize\x7d").data = [] := by
    rw [hd]
    simp
  unfold render
  rw [if_neg hne, hd]
  exact c10_aux ok hbs hus ht

theorem c10_witness :
    ('\\' ∉ "intro".data ∧ '_' ∉ "intro".data ∧ ¬ trimWS "intro".data = []) ∧
    render (fun _ => true)
        ("\\begin\x7bitemize\x7d" ++ "intro" ++ "\\item x\\end\x7bitemize\x7d") =
      [Node.list
        [⟨[], renderInlineContent (fun _ => true) (trimWS "intro".data)⟩,
         ⟨bulletLabel, [.text "x".data false false false]⟩]] :=
  ⟨by decide, c10_theorem (fun _ => true) "intro" (by decide) (by decide) (by decide)⟩

end LatexRenderer
